import Mathlib

set_option maxRecDepth 4000

/-!
Shallow embedding of the squash crate (owned thin-pointer slices with an
in-allocation length encoding).  The definitions below are translated from
src/header/mod.rs, src/header/boxed.rs and src/slice.rs.  Machine integers
(u8, u64, usize on a 64-bit platform) are modelled as Nat with explicit
bounds where overflow or truncation matters.
-/

/-- Error type from src/header/mod.rs: the slice is longer than the header
can encode. -/
inductive TooLong
  | tooLong
deriving DecidableEq

instance {ε α : Type} [DecidableEq ε] [DecidableEq α] : DecidableEq (Except ε α) := fun
  | .ok a, .ok b => decidable_of_iff (a = b) (by simp)
  | .error a, .error b => decidable_of_iff (a = b) (by simp)
  | .ok _, .error _ => .isFalse (fun h => by cases h)
  | .error _, .ok _ => .isFalse (fun h => by cases h)

/-- Constant EXTRA_MASK = 0b11 from src/header/boxed.rs. -/
def EXTRA_MASK : Nat := 3

/-- Constant INLINE_BITS = 6 from src/header/boxed.rs. -/
def INLINE_BITS : Nat := 6

/-- Constant INLINE_MASK = 0b111111 from src/header/boxed.rs. -/
def INLINE_MASK : Nat := 63

/-- Constant MAX_EXTRAS = 4 from src/header/boxed.rs. -/
def MAX_EXTRAS : Nat := 4

/-- Fuelled bit-length: number of binary digits of n, with enough fuel for a
u64 value.  Used to model 64 - len.leading_zeros() in BoxHeader::extra_needed. -/
def sigBitsAux : Nat → Nat → Nat
  | 0, _ => 0
  | fuel + 1, n => if n = 0 then 0 else sigBitsAux fuel (n / 2) + 1

/-- Significant bit count of a u64 value: 64 - leading_zeros, as computed in
BoxHeader::extra_needed (src/header/boxed.rs). -/
def significantBits (n : Nat) : Nat := sigBitsAux 64 n

/-- Extra-byte count computed inside BoxHeader::extra_needed:
((significant.saturating_sub(INLINE_BITS)) + 7) / 8.  Nat subtraction is
saturating, matching saturating_sub. -/
def extraOf (n : Nat) : Nat := (significantBits n - INLINE_BITS + 7) / 8

/-- BoxHeader::extra_needed from src/header/boxed.rs.  The leading
len.try_into::<u64>() is modelled by the len < 2^64 guard. -/
def BoxHeader.extra_needed (len : Nat) : Except TooLong Nat :=
  if len < 2 ^ 64 then
    if extraOf len ≤ MAX_EXTRAS then .ok (extraOf len) else .error .tooLong
  else .error .tooLong

/-- Byte i of the little-endian representation of a u64
(len.to_le_bytes() in BoxHeader::encode_len). -/
def leByte (n i : Nat) : Nat := n / 256 ^ i % 256

/-- u64::from_le_bytes over a little-endian byte list
(BoxHeader::decode_len). -/
def fromLEBytes : List Nat → Nat
  | [] => 0
  | b :: rest => b + 256 * fromLEBytes rest

/-- BoxHeader::encode_len from src/header/boxed.rs.  Returns the encoded
header byte together with the extra_len bytes written through the extra
pointer; none models the panic of the internal extra_needed unwrap. -/
def BoxHeader.encode_len (len : Nat) : Option (Nat × List Nat) :=
  match BoxHeader.extra_needed len with
  | .error _ => none
  | .ok extra_len =>
    some (((extra_len &&& EXTRA_MASK) <<< INLINE_BITS) |||
        (leByte len extra_len &&& INLINE_MASK),
      (List.range extra_len).map (leByte len))

/-- BoxHeader::decode_len from src/header/boxed.rs: the extra-byte count is
read back from the top two bits of the header byte, extra bytes are copied
into an 8-byte zeroed scratch buffer, the inline six bits are placed right
after them, and the buffer is read as a little-endian u64. -/
def BoxHeader.decode_len (hdr : Nat) (extra : List Nat) : Nat :=
  fromLEBytes ((List.range 8).map (fun i =>
    if i < hdr >>> INLINE_BITS then extra.getD i 0
    else if i = hdr >>> INLINE_BITS then hdr &&& INLINE_MASK
    else 0))

/-- BoxHeader::inc from src/header/boxed.rs: always refuses to share. -/
def BoxHeader.inc (_hdr : Nat) : Bool := false

/-- BoxHeader::dec from src/header/boxed.rs: every drop is the last owner. -/
def BoxHeader.dec (_hdr : Nat) : Bool := true

/-- Thin pointer of an OwnedSlice handle (src/slice.rs): either the
process-wide ZERO_SENTINEL address or the address of a real allocation. -/
inductive Ptr
  | sentinel
  | addr (a : Nat)
deriving DecidableEq

/-- Contents of one heap allocation made by OwnedSlice::new: the BoxHeader
byte, the extra length bytes, and the element array, in layout order. -/
structure Allocation (α : Type) where
  hdr : Nat
  extra : List Nat
  data : List α
deriving DecidableEq

/-- Heap model: allocations indexed by address; a slot is none after
deallocation. -/
structure Mem (α : Type) where
  allocs : List (Option (Allocation α))
deriving DecidableEq

/-- OwnedSlice from src/slice.rs: a single thin pointer, no cached length. -/
structure OwnedSlice (α : Type) where
  header : Ptr
deriving DecidableEq

/-- Default for OwnedSlice (src/slice.rs): the sentinel handle. -/
def OwnedSlice.default (α : Type) : OwnedSlice α := ⟨Ptr.sentinel⟩

/-- OwnedSlice::is_sentinel (src/slice.rs). -/
def OwnedSlice.is_sentinel {α : Type} (s : OwnedSlice α) : Bool :=
  match s.header with
  | Ptr.sentinel => true
  | Ptr.addr _ => false

/-- OwnedSlice::len (src/slice.rs): 0 for the sentinel, otherwise the length
is re-decoded from the header byte and extra bytes of the allocation on
every call. -/
def OwnedSlice.len {α : Type} (s : OwnedSlice α) (m : Mem α) : Nat :=
  match s.header with
  | Ptr.sentinel => 0
  | Ptr.addr a =>
    match m.allocs.getD a none with
    | none => 0
    | some al => BoxHeader.decode_len al.hdr al.extra

/-- Deref for OwnedSlice (src/slice.rs): the empty slice for the sentinel,
otherwise the first len elements of the data region, where len is the
decoded length. -/
def OwnedSlice.deref {α : Type} (s : OwnedSlice α) (m : Mem α) : List α :=
  match s.header with
  | Ptr.sentinel => []
  | Ptr.addr a =>
    match m.allocs.getD a none with
    | none => []
    | some al => al.data.take (BoxHeader.decode_len al.hdr al.extra)

/-- OwnedSlice::new (src/slice.rs).  Returns the construction result, the
heap after the call, and the number of element clones performed.  An empty
source short-circuits to the sentinel with no allocation; a length rejected
by the header encoding (BoxHeader.encode_len = none exactly when
BoxHeader::extra_needed fails inside layout_and_offsets) reports TooLong
with no allocation and no clones; otherwise one fresh allocation is
appended holding the encoded header byte, the extra length bytes and a
clone of every source element in order. -/
def OwnedSlice.new {α : Type} (src : List α) (m : Mem α) :
    Except TooLong (OwnedSlice α) × Mem α × Nat :=
  if src.isEmpty then (.ok (OwnedSlice.default α), m, 0)
  else
    match BoxHeader.encode_len src.length with
    | none => (.error TooLong.tooLong, m, 0)
    | some hx =>
      (.ok ⟨Ptr.addr m.allocs.length⟩,
        ⟨m.allocs ++ [some ⟨hx.1, hx.2, src⟩]⟩,
        src.length)

/-- The inc() call made by Clone for OwnedSlice on a non-sentinel handle
(src/slice.rs): reads the header byte of the allocation. -/
def OwnedSlice.headerInc {α : Type} (s : OwnedSlice α) (m : Mem α) : Bool :=
  match s.header with
  | Ptr.sentinel => false
  | Ptr.addr a =>
    match m.allocs.getD a none with
    | none => false
    | some al => BoxHeader.inc al.hdr

/-- Clone for OwnedSlice (src/slice.rs): share the pointer when the header
grants a reference-count increment, otherwise fall back to a deep copy via
OwnedSlice::new of the deref view; none models the expect panic of the
fallback. -/
def OwnedSlice.clone {α : Type} (s : OwnedSlice α) (m : Mem α) :
    Option (OwnedSlice α × Mem α) :=
  if !s.is_sentinel && s.headerInc m then some (s, m)
  else
    match OwnedSlice.new (OwnedSlice.deref s m) m with
    | (.ok s2, m2, _) => some (s2, m2)
    | (.error _, _, _) => none

/-- Drop for OwnedSlice (src/slice.rs): no-op on the sentinel; otherwise
when dec() says the count reached zero the allocation is released. -/
def OwnedSlice.drop {α : Type} (s : OwnedSlice α) (m : Mem α) : Mem α :=
  match s.header with
  | Ptr.sentinel => m
  | Ptr.addr a =>
    match m.allocs.getD a none with
    | none => m
    | some al => if BoxHeader.dec al.hdr then ⟨m.allocs.set a none⟩ else m

/-- Well-formedness of one allocation slot: header and extra bytes are u8
values, as they are in the Rust heap. -/
def Allocation.wfSlot {α : Type} : Option (Allocation α) → Prop
  | none => True
  | some al => al.hdr < 256 ∧ ∀ b ∈ al.extra, b < 256

instance {α : Type} : ∀ o : Option (Allocation α), Decidable (Allocation.wfSlot o)
  | none => .isTrue trivial
  | some al => by
    unfold Allocation.wfSlot
    infer_instance

/-- Well-formedness of the heap model: every live allocation stores u8
values in its header and extra-byte region. -/
def Mem.wf {α : Type} (m : Mem α) : Prop := ∀ alo ∈ m.allocs, Allocation.wfSlot alo

instance {α : Type} (m : Mem α) : Decidable (Mem.wf m) :=
  List.decidableBAll _ _

/-- State of the element-initialization loop in OwnedSlice::new
(src/slice.rs): the value of the initialized cell and the list of indices
whose slot holds a live element. -/
structure LoopState where
  initialized : Nat
  written : List Nat
deriving DecidableEq

/-- The element-clone loop of OwnedSlice::new (src/slice.rs) run with a
clone that panics at source index k: each step performs
ptr::write(data_ptr.add(idx), src.clone()) and then initialized.set(idx);
error st models the panic escaping with exactly the state the CleanupGuard
observes in its Drop. -/
def cloneLoop (k : Nat) : List Nat → LoopState → Except LoopState LoopState
  | [], st => .ok st
  | idx :: rest, st =>
    if idx = k then .error st
    else cloneLoop k rest ⟨idx, st.written ++ [idx]⟩

/-- Initialization of OwnedSlice::new over n source elements whose clone
panics at index k, starting from Cell::new(0) and no slot written. -/
def runInit (n k : Nat) : Except LoopState LoopState :=
  cloneLoop k (List.range n) ⟨0, []⟩

/-- Slots destroyed by CleanupGuard::drop (src/slice.rs):
for i in 0..=self.initialized.get() { ptr::drop_in_place(...) }. -/
def guardDrops (st : LoopState) : List Nat := List.range (st.initialized + 1)

/-- Maximum isize value on a 64-bit platform, the overflow bound enforced
by Layout::from_size_align. -/
def ISIZE_MAX : Nat := 2 ^ 63 - 1

/-- Rounding a size up to an alignment, as Layout::padding_needed_for does
before extending. -/
def roundUpAlign (n a : Nat) : Nat := (n + a - 1) / a * a

/-- Size and alignment pair (alloc::alloc::Layout). -/
structure Layout where
  size : Nat
  align : Nat
deriving DecidableEq

/-- Layout::from_size_align: the size rounded up to the alignment must not
overflow isize. -/
def Layout.from_size_align (size align : Nat) : Option Layout :=
  if roundUpAlign size align ≤ ISIZE_MAX then some ⟨size, align⟩ else none

/-- Layout::extend: place next after self, padding self.size up to the
alignment of next; yields the combined layout and the field offset of
next. -/
def Layout.extend (l : Layout) (next : Layout) : Option (Layout × Nat) :=
  match Layout.from_size_align (roundUpAlign l.size next.align + next.size)
      (max l.align next.align) with
  | some combined => some (combined, roundUpAlign l.size next.align)
  | none => none

/-- Layout::array for an element type of the given size and alignment (in
Rust the element size is already a multiple of the alignment). -/
def Layout.array (tSize tAlign n : Nat) : Option Layout :=
  Layout.from_size_align (n * tSize) tAlign

/-- OwnedSlice::layout_and_offsets (src/slice.rs) for the default BoxHeader
(Layout::new::<BoxHeader>() is size 1, align 1) and an element type of size
tSize and alignment tAlign: extend the header layout with the extra length
bytes, then with the element array.  The Except layer carries the TooLong
of extra_needed; the Option layer models the expect panics on layout
overflow. -/
def layout_and_offsets (tSize tAlign len : Nat) :
    Except TooLong (Option (Layout × Nat × Nat)) :=
  match BoxHeader.extra_needed len with
  | .error e => .error e
  | .ok extra =>
    .ok (do
      let a8 ← Layout.array 1 1 extra
      let p1 ← (Layout.mk 1 1).extend a8
      let dataLayout ← Layout.array tSize tAlign len
      let p2 ← p1.1.extend dataLayout
      pure (p2.1, p1.2, p2.2))

lemma sigBitsAux_le_iff (fuel : Nat) :
    ∀ n k : Nat, n < 2 ^ fuel → (sigBitsAux fuel n ≤ k ↔ n < 2 ^ k) := by
  induction fuel with
  | zero =>
    intro n k hn
    have hn0 : n = 0 := by simpa using hn
    subst hn0
    simp [sigBitsAux, Nat.pos_pow_of_pos]
  | succ f ih =>
    intro n k hn
    by_cases hn0 : n = 0
    · subst hn0
      simp [sigBitsAux, Nat.pos_pow_of_pos]
    · have hdiv : n / 2 < 2 ^ f := by
        rw [Nat.div_lt_iff_lt_mul (by norm_num)]
        calc n < 2 ^ (f + 1) := hn
          _ = 2 ^ f * 2 := by ring
      cases k with
      | zero =>
        simp only [sigBitsAux, if_neg hn0, pow_zero]
        omega
      | succ k =>
        have hk : n / 2 < 2 ^ k ↔ n < 2 ^ (k + 1) := by
          rw [Nat.div_lt_iff_lt_mul (by norm_num), pow_succ]
        simp only [sigBitsAux, if_neg hn0, Nat.succ_le_succ_iff]
        rw [ih (n / 2) k hdiv, hk]

lemma significantBits_le_iff (n k : Nat) (hn : n < 2 ^ 64) :
    significantBits n ≤ k ↔ n < 2 ^ k :=
  sigBitsAux_le_iff 64 n k hn

lemma lt_two_pow_significantBits (n : Nat) (hn : n < 2 ^ 64) :
    n < 2 ^ significantBits n :=
  (significantBits_le_iff n _ hn).mp le_rfl

lemma lt_encode_bound (n : Nat) (hn : n < 2 ^ 64) :
    n < 2 ^ (8 * extraOf n + 6) := by
  have h1 := lt_two_pow_significantBits n hn
  have h2 : significantBits n ≤ 8 * extraOf n + 6 := by
    unfold extraOf INLINE_BITS
    omega
  exact lt_of_lt_of_le h1 (Nat.pow_le_pow_right (by norm_num) h2)

lemma and_63_eq_mod (x : Nat) : x &&& 63 = x % 64 := by
  have := Nat.and_pow_two_sub_one_eq_mod x 6
  norm_num at this
  exact this

lemma and_3_eq_mod (x : Nat) : x &&& 3 = x % 4 := by
  have := Nat.and_pow_two_sub_one_eq_mod x 2
  norm_num at this
  exact this

lemma shiftRight_6_eq_div (x : Nat) : x >>> 6 = x / 64 := by
  have := Nat.shiftRight_eq_div_pow x 6
  norm_num at this
  exact this

lemma lor_shift6 : ∀ k, k < 4 → ∀ m, m < 64 → ((k <<< 6) ||| m) = 64 * k + m := by
  decide

lemma encode_hdr_eq (e x : Nat) (he : e < 4) :
    ((e &&& EXTRA_MASK) <<< INLINE_BITS) ||| (x &&& INLINE_MASK) = 64 * e + x % 64 := by
  unfold EXTRA_MASK INLINE_BITS INLINE_MASK
  rw [and_63_eq_mod, and_3_eq_mod, Nat.mod_eq_of_lt he]
  exact lor_shift6 e he (x % 64) (Nat.mod_lt x (by norm_num))

lemma decode_len_hdr (e m : Nat) (extra : List Nat) (he : e < 4) (hm : m < 64) :
    BoxHeader.decode_len (64 * e + m) extra =
      fromLEBytes ((List.range 8).map (fun i =>
        if i < e then extra.getD i 0 else if i = e then m else 0)) := by
  have h1 : (64 * e + m) >>> INLINE_BITS = e := by
    unfold INLINE_BITS
    rw [shiftRight_6_eq_div]
    omega
  have h2 : (64 * e + m) &&& INLINE_MASK = m := by
    unfold INLINE_MASK
    rw [and_63_eq_mod]
    omega
  simp only [BoxHeader.decode_len, h1, h2]

lemma extra_needed_ok (n : Nat) (h64 : n < 2 ^ 64) (h4 : extraOf n ≤ 4) :
    BoxHeader.extra_needed n = .ok (extraOf n) := by
  unfold BoxHeader.extra_needed MAX_EXTRAS
  rw [if_pos h64, if_pos h4]

lemma encode_len_ok (n : Nat) (h64 : n < 2 ^ 64) (h4 : extraOf n ≤ 4) :
    BoxHeader.encode_len n =
      some (((extraOf n &&& EXTRA_MASK) <<< INLINE_BITS) |||
          (leByte n (extraOf n) &&& INLINE_MASK),
        (List.range (extraOf n)).map (leByte n)) := by
  unfold BoxHeader.encode_len
  rw [extra_needed_ok n h64 h4]

lemma range8_eq : List.range 8 = [0, 1, 2, 3, 4, 5, 6, 7] := by decide

/-- Round-trip of the length encoding for every length that needs at most
three extra bytes (the correctly-working part of the encoder). -/
lemma decode_encode_lt (n hdr : Nat) (ex : List Nat) (h : n < 2 ^ 30)
    (he : BoxHeader.encode_len n = some (hdr, ex)) :
    BoxHeader.decode_len hdr ex = n := by
  have h64 : n < 2 ^ 64 := lt_trans h (by norm_num)
  have hsig : significantBits n ≤ 30 := (significantBits_le_iff n 30 h64).mpr h
  have he3 : extraOf n ≤ 3 := by
    unfold extraOf INLINE_BITS
    omega
  have hb : n < 2 ^ (8 * extraOf n + 6) := lt_encode_bound n h64
  rw [encode_len_ok n h64 (le_trans he3 (by norm_num))] at he
  obtain ⟨e, hE⟩ : ∃ e, extraOf n = e := ⟨_, rfl⟩
  rw [hE] at he hb
  have he4 : e < 4 := by omega
  rw [encode_hdr_eq e (leByte n e) he4] at he
  obtain ⟨hhdr, hex⟩ := Prod.mk.injEq .. ▸ (Option.some.inj he)
  subst hhdr
  subst hex
  rw [decode_len_hdr e (leByte n e % 64) _ he4 (Nat.mod_lt _ (by norm_num))]
  interval_cases e <;>
    simp only [range8_eq, List.map, fromLEBytes, List.getD, List.range_succ,
      List.range_zero, List.nil_append, List.cons_append, leByte] <;>
    norm_num <;>
    omega

lemma extraOf_le_three (n : Nat) (h : n < 2 ^ 30) : extraOf n ≤ 3 := by
  have h64 : n < 2 ^ 64 := lt_trans h (by norm_num)
  have hsig : significantBits n ≤ 30 := (significantBits_le_iff n 30 h64).mpr h
  unfold extraOf INLINE_BITS
  omega

lemma getD_lt_256 (l : List Nat) (hb : ∀ b ∈ l, b < 256) (i : Nat) : l.getD i 0 < 256 := by
  induction l generalizing i with
  | nil => simp [List.getD_nil]
  | cons b rest ih =>
    cases i with
    | zero => simpa using hb b (by simp)
    | succ i =>
      rw [List.getD_cons_succ]
      exact ih (fun x hx => hb x (by simp [hx])) i

lemma decode_len_lt (hdr : Nat) (extra : List Nat) (hh : hdr < 256)
    (hb : ∀ b ∈ extra, b < 256) : BoxHeader.decode_len hdr extra < 2 ^ 30 := by
  have hsr := shiftRight_6_eq_div hdr
  obtain ⟨e, hE⟩ : ∃ e, hdr >>> INLINE_BITS = e := ⟨_, rfl⟩
  have he4 : e < 4 := by
    unfold INLINE_BITS at hE
    omega
  obtain ⟨mv, hM⟩ : ∃ mv, hdr &&& INLINE_MASK = mv := ⟨_, rfl⟩
  have hm : mv < 64 := by
    unfold INLINE_MASK at hM
    rw [and_63_eq_mod] at hM
    omega
  have h0 := getD_lt_256 extra hb 0
  have h1 := getD_lt_256 extra hb 1
  have h2 := getD_lt_256 extra hb 2
  simp only [List.getD_eq_getElem?_getD] at h0 h1 h2
  unfold BoxHeader.decode_len
  simp only [hE, hM]
  interval_cases e <;> simp [range8_eq, fromLEBytes] <;> omega

lemma new_spec {α : Type} (src : List α) (m : Mem α) (h1 : src ≠ [])
    (h2 : src.length < 2 ^ 30) :
    (OwnedSlice.new src m).1 = .ok ⟨Ptr.addr m.allocs.length⟩ ∧
    OwnedSlice.len ⟨Ptr.addr m.allocs.length⟩ (OwnedSlice.new src m).2.1 = src.length ∧
    OwnedSlice.deref ⟨Ptr.addr m.allocs.length⟩ (OwnedSlice.new src m).2.1 = src := by
  have hne : src.isEmpty = false := by
    cases src with
    | nil => exact absurd rfl h1
    | cons a l => rfl
  have h64 : src.length < 2 ^ 64 := lt_trans h2 (by norm_num)
  have h4 : extraOf src.length ≤ 4 := le_trans (extraOf_le_three _ h2) (by norm_num)
  have henc := encode_len_ok src.length h64 h4
  have hdec := decode_encode_lt src.length _ _ h2 henc
  simp only [OwnedSlice.new, hne, henc, Bool.false_eq_true, if_false]
  refine ⟨trivial, ?_, ?_⟩
  · simp only [OwnedSlice.len]
    rw [List.getD_eq_getElem?_getD, List.getElem?_concat_length]
    simpa using hdec
  · simp only [OwnedSlice.deref]
    rw [List.getD_eq_getElem?_getD, List.getElem?_concat_length]
    simp only [Option.getD_some]
    rw [hdec]
    exact List.take_length src

lemma encode_len_none_iff (n : Nat) :
    BoxHeader.encode_len n = none ↔ BoxHeader.extra_needed n = .error TooLong.tooLong := by
  unfold BoxHeader.encode_len
  cases h : BoxHeader.extra_needed n with
  | error e => cases e; simp
  | ok e => simp

lemma wf_lookup {α : Type} (m : Mem α) (hwf : Mem.wf m) (a : Nat) (al : Allocation α)
    (h : m.allocs.getD a none = some al) :
    al.hdr < 256 ∧ ∀ b ∈ al.extra, b < 256 := by
  rw [List.getD_eq_getElem?_getD] at h
  cases hg : m.allocs[a]? with
  | none => rw [hg] at h; cases h
  | some o =>
    rw [hg] at h
    simp only [Option.getD_some] at h
    subst h
    exact hwf _ (List.getElem?_mem hg)

lemma getD_some_lt_length {α : Type} (l : List (Option α)) (a : Nat) (x : α)
    (h : l.getD a none = some x) : a < l.length := by
  by_contra hge
  rw [List.getD_eq_default] at h
  · cases h
  · omega

lemma le_roundUpAlign (n a : Nat) (ha : 0 < a) : n ≤ roundUpAlign n a := by
  unfold roundUpAlign
  have hd := Nat.div_add_mod (n + a - 1) a
  have hm : (n + a - 1) % a < a := Nat.mod_lt _ ha
  rw [Nat.mul_comm]
  obtain ⟨t, ht⟩ : ∃ t, a * ((n + a - 1) / a) = t := ⟨_, rfl⟩
  obtain ⟨s, hs⟩ : ∃ s, (n + a - 1) % a = s := ⟨_, rfl⟩
  rw [ht, hs] at hd
  rw [hs] at hm
  rw [ht]
  omega

lemma from_size_align_some (s a : Nat) (L : Layout)
    (h : Layout.from_size_align s a = some L) : L = ⟨s, a⟩ := by
  unfold Layout.from_size_align at h
  split at h
  · exact (Option.some.inj h).symm
  · cases h

lemma extend_some (l next : Layout) (L : Layout) (off : Nat)
    (h : l.extend next = some (L, off)) :
    L.size = roundUpAlign l.size next.align + next.size := by
  unfold Layout.extend at h
  cases hf : Layout.from_size_align (roundUpAlign l.size next.align + next.size)
      (max l.align next.align) with
  | none =>
    rw [hf] at h
    cases h
  | some combined =>
    rw [hf] at h
    obtain ⟨h1, h2⟩ := Prod.mk.injEq .. ▸ Option.some.inj h
    rw [← h1, from_size_align_some _ _ _ hf]

lemma array_some (tSize tAlign n : Nat) (L : Layout)
    (h : Layout.array tSize tAlign n = some L) : L = ⟨n * tSize, tAlign⟩ := by
  unfold Layout.array Layout.from_size_align at h
  split at h
  · exact (Option.some.inj h).symm
  · cases h

/-- C1: the claimed round-trip law decode_len(encode_len(n, buf), buf) == n
for every n accepted by extra_needed FAILS in the code: length 2^30 is
accepted with 4 extra bytes, but the 2-bit tag field stores 4 &&& 0b11 = 0,
so the encoded header byte is 0 and decoding returns 0, not 2^30. -/
theorem c1_roundtrip_fails_at_four_extras :
    BoxHeader.extra_needed (2 ^ 30) = .ok 4 ∧
    BoxHeader.encode_len (2 ^ 30) = some (0, [0, 0, 0, 64]) ∧
    BoxHeader.decode_len 0 [0, 0, 0, 64] = 0 ∧
    (0 : Nat) ≠ 2 ^ 30 := by decide

/-- C3: the claimed panic-safety law fails when the clone of the FIRST
element (k = 0) panics: the initialized cell still holds its initial value
0, so CleanupGuard::drop runs drop_in_place over 0..=0 and destroys slot 0,
which was never written — the claim says exactly the elements 0..k-1 (here:
none) are dropped. -/
theorem c3_guard_drops_uninitialized :
    runInit 4 0 = .error ⟨0, []⟩ ∧
    guardDrops ⟨0, []⟩ = [0] ∧
    (⟨0, []⟩ : LoopState).written = [] ∧
    guardDrops ⟨0, []⟩ ≠ [] := by decide

/-- C7: constructing from an empty source performs no allocation and
returns exactly the default (sentinel) handle with zero clones; the
sentinel reports length 0, derefs to the empty slice, and dropping it
leaves the heap untouched. -/
theorem c7_sentinel_behaviour {α : Type} (m : Mem α) :
    OwnedSlice.new ([] : List α) m = (.ok (OwnedSlice.default α), m, 0) ∧
    OwnedSlice.len (OwnedSlice.default α) m = 0 ∧
    OwnedSlice.deref (OwnedSlice.default α) m = [] ∧
    OwnedSlice.drop (OwnedSlice.default α) m = m :=
  ⟨rfl, rfl, rfl, rfl⟩

/-- C8 counterexample: encoding length 300 does NOT produce extra byte 94;
the code writes the little-endian low byte 44 (300 = 1*256 + 44) into the
single extra byte. -/
theorem c8_extra_byte_cex : BoxHeader.encode_len 300 ≠ some (65, [94]) := by decide

/-- C8 (amended): with the default encoder, extra_needed(300) = 1,
encode_len(300) produces the tag byte 0b0100_0001 (the inline six bits hold
the high byte 1, the top two bits the tag 01) with the single extra byte
holding the low byte 44, and decode_len reads the length back as exactly
300. -/
theorem c8_worked_example_amended :
    BoxHeader.extra_needed 300 = .ok 1 ∧
    BoxHeader.encode_len 300 = some (65, [44]) ∧
    BoxHeader.decode_len 65 [44] = 300 := by decide

/-- C9: for every header byte value, decode_len reads back the stored 2-bit
tag as the extra-byte count, which is at most 3, and its result depends
only on that many leading bytes of the extra buffer (the scratch index it
writes, equal to the tag, is also at most 3). -/
theorem c9_bounded_decode_reads (hdr : Nat) (extra : List Nat) (hh : hdr < 256) :
    hdr >>> INLINE_BITS ≤ 3 ∧
    BoxHeader.decode_len hdr extra =
      BoxHeader.decode_len hdr (extra.take (hdr >>> INLINE_BITS)) := by
  have hsr := shiftRight_6_eq_div hdr
  have h3 : hdr >>> INLINE_BITS ≤ 3 := by
    unfold INLINE_BITS
    omega
  refine ⟨h3, ?_⟩
  unfold BoxHeader.decode_len
  congr 1
  apply List.map_congr_left
  intro i _
  by_cases hlt : i < hdr >>> INLINE_BITS
  · rw [if_pos hlt, if_pos hlt, List.getD_eq_getElem?_getD, List.getD_eq_getElem?_getD,
      List.getElem?_take, if_pos hlt]
  · rw [if_neg hlt, if_neg hlt]

/-- Witness for C9 at the all-ones header byte 255 (tag 3). -/
theorem c9_bounded_decode_reads_witness :
    (255 : Nat) < 256 ∧ 255 >>> INLINE_BITS ≤ 3 ∧
    BoxHeader.decode_len 255 [1, 2, 3, 4, 5] =
      BoxHeader.decode_len 255 ([1, 2, 3, 4, 5].take (255 >>> INLINE_BITS)) :=
  ⟨by decide, (c9_bounded_decode_reads 255 [1, 2, 3, 4, 5] (by decide)).1,
    (c9_bounded_decode_reads 255 [1, 2, 3, 4, 5] (by decide)).2⟩

lemma new_len_decode {α : Type} (src : List α) (m : Mem α) (hdr : Nat) (ex : List Nat)
    (hne : src.isEmpty = false)
    (henc : BoxHeader.encode_len src.length = some (hdr, ex)) :
    (OwnedSlice.new src m).1 = .ok ⟨Ptr.addr m.allocs.length⟩ ∧
    OwnedSlice.len ⟨Ptr.addr m.allocs.length⟩ (OwnedSlice.new src m).2.1 =
      BoxHeader.decode_len hdr ex := by
  simp only [OwnedSlice.new, hne, Bool.false_eq_true, if_false, henc]
  refine ⟨trivial, ?_⟩
  simp only [OwnedSlice.len]
  rw [List.getD_eq_getElem?_getD, List.getElem?_concat_length]
  rfl

/-- C2 counterexample: a source of 2^30 elements is accepted by
extra_needed (4 extra bytes), OwnedSlice::new succeeds, but len() decodes 0
instead of 2^30, because the 2-bit tag cannot store the extra count 4. -/
theorem c2_len_cex :
    (OwnedSlice.new (List.replicate (2 ^ 30) (0 : Nat)) ⟨[]⟩).1 = .ok ⟨Ptr.addr 0⟩ ∧
    (List.replicate (2 ^ 30) (0 : Nat)).length = 2 ^ 30 ∧
    OwnedSlice.len ⟨Ptr.addr 0⟩
      (OwnedSlice.new (List.replicate (2 ^ 30) (0 : Nat)) ⟨[]⟩).2.1 = 0 ∧
    (0 : Nat) ≠ 2 ^ 30 := by
  have hlen : (List.replicate (2 ^ 30) (0 : Nat)).length = 2 ^ 30 :=
    List.length_replicate _ _
  have hnil : List.replicate (2 ^ 30) (0 : Nat) ≠ [] := by
    intro hc
    have := congrArg List.length hc
    rw [hlen] at this
    norm_num at this
  have hne : (List.replicate (2 ^ 30) (0 : Nat)).isEmpty = false :=
    List.isEmpty_eq_false.mpr hnil
  have henc : BoxHeader.encode_len (List.replicate (2 ^ 30) (0 : Nat)).length =
      some (0, [0, 0, 0, 64]) := by
    rw [hlen]
    decide
  have hdec : BoxHeader.decode_len 0 [0, 0, 0, 64] = 0 := by decide
  have h := new_len_decode (List.replicate (2 ^ 30) (0 : Nat)) (⟨[]⟩ : Mem Nat)
    0 [0, 0, 0, 64] hne henc
  rw [hdec] at h
  exact ⟨h.1, hlen, h.2, by norm_num⟩

/-- C2 (amended): for every non-empty source whose length needs at most
three extra bytes (src.length < 2^30), OwnedSlice::new succeeds with a
fresh allocation, len() — re-decoded from the stored header byte and extra
bytes on every call, nothing cached in the handle — returns exactly
src.length, and the deref view exposes exactly src, element by element in
order.  (For accepted lengths of 2^30 and above the stored 2-bit tag
truncates the extra count and len() diverges from src.length.) -/
theorem c2_read_access_amended {α : Type} (src : List α) (m : Mem α)
    (h1 : src ≠ []) (h2 : src.length < 2 ^ 30) :
    (OwnedSlice.new src m).1 = .ok ⟨Ptr.addr m.allocs.length⟩ ∧
    OwnedSlice.len ⟨Ptr.addr m.allocs.length⟩ (OwnedSlice.new src m).2.1 = src.length ∧
    OwnedSlice.deref ⟨Ptr.addr m.allocs.length⟩ (OwnedSlice.new src m).2.1 = src :=
  new_spec src m h1 h2

/-- Witness for C2 (amended) on the concrete source [10, 20, 30]. -/
theorem c2_read_access_amended_witness :
    ([10, 20, 30] : List Nat) ≠ [] ∧ ([10, 20, 30] : List Nat).length < 2 ^ 30 ∧
    ((OwnedSlice.new ([10, 20, 30] : List Nat) ⟨[]⟩).1 = .ok ⟨Ptr.addr 0⟩ ∧
      OwnedSlice.len ⟨Ptr.addr 0⟩ (OwnedSlice.new ([10, 20, 30] : List Nat) ⟨[]⟩).2.1 = 3 ∧
      OwnedSlice.deref ⟨Ptr.addr 0⟩ (OwnedSlice.new ([10, 20, 30] : List Nat) ⟨[]⟩).2.1 =
        [10, 20, 30]) := by
  refine ⟨by decide, by decide, ?_⟩
  have h := c2_read_access_amended ([10, 20, 30] : List Nat) (⟨[]⟩ : Mem Nat)
    (by decide) (by decide)
  simpa using h

/-- C4: BoxHeader::extra_needed accepts exactly the lengths of at most 38
significant bits (6 inline + 4 times 8 extra), i.e. exactly those below
2^38, and the extra-byte count at the tier boundaries is 0 for 63, 1 for 64
and 65, 1 for 2^14 - 1, and 2 for 2^14. -/
theorem c4_capacity_and_tiers :
    (∀ n : Nat, (BoxHeader.extra_needed n).isOk = true ↔ n < 2 ^ 38) ∧
    BoxHeader.extra_needed 63 = .ok 0 ∧
    BoxHeader.extra_needed 64 = .ok 1 ∧
    BoxHeader.extra_needed 65 = .ok 1 ∧
    BoxHeader.extra_needed (2 ^ 14 - 1) = .ok 1 ∧
    BoxHeader.extra_needed (2 ^ 14) = .ok 2 := by
  refine ⟨?_, by decide, by decide, by decide, by decide, by decide⟩
  intro n
  by_cases h64 : n < 2 ^ 64
  · have hiff := significantBits_le_iff n 38 h64
    unfold BoxHeader.extra_needed MAX_EXTRAS
    rw [if_pos h64]
    by_cases h4 : extraOf n ≤ 4
    · rw [if_pos h4]
      constructor
      · intro _
        refine hiff.mp ?_
        unfold extraOf INLINE_BITS at h4
        omega
      · intro _
        rfl
    · rw [if_neg h4]
      constructor
      · intro h
        exact absurd h (by decide)
      · intro h
        exfalso
        apply h4
        have hsig : significantBits n ≤ 38 := hiff.mpr h
        unfold extraOf INLINE_BITS
        omega
  · have herr : BoxHeader.extra_needed n = .error .tooLong := by
      unfold BoxHeader.extra_needed
      rw [if_neg h64]
    rw [herr]
    constructor
    · intro h
      exact absurd h (by decide)
    · intro h
      exact absurd (lt_trans h (by norm_num)) h64

/-- C5: OwnedSlice::new reports Err(TooLong) exactly when
BoxHeader::extra_needed rejects the source length, and in that case the
heap is untouched (no allocation) and zero source elements are cloned. -/
theorem c5_new_error_behaviour {α : Type} (src : List α) (m : Mem α) :
    ((OwnedSlice.new src m).1 = .error TooLong.tooLong ↔
      BoxHeader.extra_needed src.length = .error TooLong.tooLong) ∧
    (BoxHeader.extra_needed src.length = .error TooLong.tooLong →
      OwnedSlice.new src m = (.error TooLong.tooLong, m, 0)) := by
  by_cases hsrc : src.isEmpty
  · have hnil : src = [] := List.isEmpty_iff.mp hsrc
    subst hnil
    refine ⟨⟨fun h => ?_, fun h => ?_⟩, fun h => ?_⟩
    · cases h
    · rw [List.length_nil] at h
      exact absurd h (by decide)
    · rw [List.length_nil] at h
      exact absurd h (by decide)
  · have hB : src.isEmpty = false := by
      revert hsrc
      cases src.isEmpty <;> simp
    cases henc : BoxHeader.encode_len src.length with
    | none =>
      have herr := (encode_len_none_iff src.length).mp henc
      refine ⟨⟨fun _ => herr, fun _ => ?_⟩, fun _ => ?_⟩ <;>
        simp only [OwnedSlice.new, hB, Bool.false_eq_true, if_false, henc]
    | some hx =>
      have hok : ¬ BoxHeader.extra_needed src.length = .error TooLong.tooLong := by
        intro h
        have := (encode_len_none_iff src.length).mpr h
        rw [henc] at this
        cases this
      refine ⟨⟨fun h => ?_, fun h => absurd h hok⟩, fun h => absurd h hok⟩
      simp only [OwnedSlice.new, hB, Bool.false_eq_true, if_false, henc] at h
      cases h

/-- Witness for C5 at a source of 2^38 elements, which extra_needed
rejects. -/
theorem c5_new_error_behaviour_witness :
    BoxHeader.extra_needed (List.replicate (2 ^ 38) (0 : Nat)).length =
      .error TooLong.tooLong ∧
    OwnedSlice.new (List.replicate (2 ^ 38) (0 : Nat)) (⟨[]⟩ : Mem Nat) =
      (.error TooLong.tooLong, ⟨[]⟩, 0) := by
  have hlen : (List.replicate (2 ^ 38) (0 : Nat)).length = 2 ^ 38 :=
    List.length_replicate _ _
  have herr : BoxHeader.extra_needed (List.replicate (2 ^ 38) (0 : Nat)).length =
      .error TooLong.tooLong := by
    rw [hlen]
    decide
  exact ⟨herr,
    (c5_new_error_behaviour (List.replicate (2 ^ 38) (0 : Nat)) (⟨[]⟩ : Mem Nat)).2 herr⟩

lemma deref_addr {α : Type} (s : OwnedSlice α) (m : Mem α) (a : Nat)
    (hH : s.header = Ptr.addr a) :
    OwnedSlice.deref s m =
      (match m.allocs.getD a none with
        | none => []
        | some al => al.data.take (BoxHeader.decode_len al.hdr al.extra)) := by
  unfold OwnedSlice.deref
  rw [hH]

lemma headerInc_false {α : Type} (s : OwnedSlice α) (m : Mem α) :
    s.headerInc m = false := by
  unfold OwnedSlice.headerInc
  cases s.header with
  | sentinel => rfl
  | addr a =>
    show (match m.allocs.getD a none with
      | none => false
      | some al => BoxHeader.inc al.hdr) = false
    cases m.allocs.getD a none with
    | none => rfl
    | some al => rfl

lemma clone_cond_false {α : Type} (s : OwnedSlice α) (m : Mem α) :
    (!s.is_sentinel && s.headerInc m) = false := by
  rw [headerInc_false]
  exact Bool.and_false _

lemma clone_eq_fallback {α : Type} (s : OwnedSlice α) (m : Mem α) :
    OwnedSlice.clone s m =
      (match OwnedSlice.new (OwnedSlice.deref s m) m with
        | (.ok s2, m2, _) => some (s2, m2)
        | (.error _, _, _) => none) := by
  unfold OwnedSlice.clone
  rw [clone_cond_false]
  rfl

lemma deref_length_lt {α : Type} (s : OwnedSlice α) (m : Mem α) (hwf : Mem.wf m) :
    (OwnedSlice.deref s m).length < 2 ^ 30 := by
  cases hH : s.header with
  | sentinel =>
    unfold OwnedSlice.deref
    rw [hH]
    norm_num
  | addr a =>
    rw [deref_addr s m a hH]
    cases hal : m.allocs.getD a none with
    | none => norm_num
    | some al =>
      obtain ⟨hh, hb⟩ := wf_lookup m hwf a al hal
      have hdl := decode_len_lt al.hdr al.extra hh hb
      exact lt_of_le_of_lt (List.length_take_le _ _) hdl

lemma clone_deep {α : Type} (s : OwnedSlice α) (m : Mem α) (hwf : Mem.wf m)
    (hd : OwnedSlice.deref s m ≠ []) :
    OwnedSlice.clone s m =
      some (⟨Ptr.addr m.allocs.length⟩, (OwnedSlice.new (OwnedSlice.deref s m) m).2.1) ∧
    OwnedSlice.deref ⟨Ptr.addr m.allocs.length⟩
        ((OwnedSlice.new (OwnedSlice.deref s m) m).2.1) = OwnedSlice.deref s m := by
  have hlt := deref_length_lt s m hwf
  have hsp := new_spec (OwnedSlice.deref s m) m hd hlt
  rw [clone_eq_fallback]
  rcases hN : OwnedSlice.new (OwnedSlice.deref s m) m with ⟨res, m2, k⟩
  rw [hN] at hsp
  obtain ⟨h1, _, h3⟩ := hsp
  simp only at h1 h3
  rw [h1]
  exact ⟨rfl, h3⟩

/-- C6: for a well-formed heap, clone() never fails (BoxHeader::inc always
returns false, so the fallback deep copy via OwnedSlice::new runs, and the
decoded view length of a live handle is always re-encodable, so the
fallback never reports TooLong); cloning the sentinel yields the sentinel
and leaves the heap unchanged; and cloning any handle with a non-empty
view yields a handle to a fresh allocation at an address distinct from the
original, with element-wise equal contents. -/
theorem c6_clone_total_deep_copy {α : Type} (s : OwnedSlice α) (m : Mem α)
    (hwf : Mem.wf m) :
    (OwnedSlice.clone s m).isSome = true ∧
    OwnedSlice.clone (OwnedSlice.default α) m = some (OwnedSlice.default α, m) ∧
    (∀ a, s.header = Ptr.addr a → OwnedSlice.deref s m ≠ [] →
      OwnedSlice.clone s m =
        some (⟨Ptr.addr m.allocs.length⟩, (OwnedSlice.new (OwnedSlice.deref s m) m).2.1) ∧
      a ≠ m.allocs.length ∧
      OwnedSlice.deref ⟨Ptr.addr m.allocs.length⟩
          ((OwnedSlice.new (OwnedSlice.deref s m) m).2.1) = OwnedSlice.deref s m) := by
  refine ⟨?_, rfl, ?_⟩
  · by_cases hd : OwnedSlice.deref s m = []
    · rw [clone_eq_fallback, hd]
      rfl
    · rw [(clone_deep s m hwf hd).1]
      rfl
  · intro a hH hd
    obtain ⟨hc, hv⟩ := clone_deep s m hwf hd
    refine ⟨hc, ?_, hv⟩
    intro hcontra
    rw [deref_addr s m a hH] at hd
    cases hal : m.allocs.getD a none with
    | none =>
      rw [hal] at hd
      exact hd rfl
    | some al =>
      have hlt := getD_some_lt_length m.allocs a al hal
      omega

/-- Witness for C6 on a concrete one-allocation heap holding [7, 8]. -/
theorem c6_clone_total_deep_copy_witness :
    Mem.wf (⟨[some ⟨2, [], [7, 8]⟩]⟩ : Mem Nat) ∧
    OwnedSlice.deref (⟨Ptr.addr 0⟩ : OwnedSlice Nat) ⟨[some ⟨2, [], [7, 8]⟩]⟩ ≠ [] ∧
    OwnedSlice.clone (⟨Ptr.addr 0⟩ : OwnedSlice Nat) ⟨[some ⟨2, [], [7, 8]⟩]⟩ =
      some (⟨Ptr.addr 1⟩, ⟨[some ⟨2, [], [7, 8]⟩, some ⟨2, [], [7, 8]⟩]⟩) ∧
    (0 : Nat) ≠ 1 := by
  refine ⟨by decide, by decide, ?_, by decide⟩
  have h := (c6_clone_total_deep_copy (⟨Ptr.addr 0⟩ : OwnedSlice Nat)
    ⟨[some ⟨2, [], [7, 8]⟩]⟩ (by decide)).2.2 0 rfl (by decide)
  exact h.1.trans (by decide)

/-- C10: whenever layout_and_offsets succeeds for a positive element count
(any element size, including zero), the combined layout is at least as
large as the 1-byte BoxHeader, so the layout.size() > 0 assertion in
OwnedSlice::new cannot fire. -/
theorem c10_layout_size_positive (tSize tAlign len : Nat) (L : Layout) (o1 o2 : Nat)
    (ha : 0 < tAlign) (hl : 0 < len)
    (h : layout_and_offsets tSize tAlign len = .ok (some (L, o1, o2))) :
    1 ≤ L.size := by
  unfold layout_and_offsets at h
  cases hex : BoxHeader.extra_needed len with
  | error e =>
    rw [hex] at h
    cases h
  | ok extra =>
    rw [hex] at h
    have hdo := Except.ok.inj h
    obtain ⟨a8, ha8, h1⟩ := Option.bind_eq_some.mp hdo
    obtain ⟨p1, hp1, h2⟩ := Option.bind_eq_some.mp h1
    obtain ⟨dl, hdl, h3⟩ := Option.bind_eq_some.mp h2
    obtain ⟨p2, hp2, h4⟩ := Option.bind_eq_some.mp h3
    have hL := (Prod.mk.injEq .. ▸ Option.some.inj h4).1
    have ha8v := array_some 1 1 extra a8 ha8
    have hdlv := array_some tSize tAlign len dl hdl
    rcases p1 with ⟨l1, off1⟩
    rcases p2 with ⟨L2, off2⟩
    have h1size : l1.size = roundUpAlign (Layout.mk 1 1).size a8.align + a8.size :=
      extend_some _ _ _ _ hp1
    have h2size : L2.size = roundUpAlign l1.size dl.align + dl.size :=
      extend_some _ _ _ _ hp2
    subst ha8v
    subst hdlv
    simp only [Layout.mk.injEq] at h1size h2size hL
    have hr11 : roundUpAlign 1 1 = 1 := by norm_num [roundUpAlign]
    have hge : l1.size ≤ roundUpAlign l1.size tAlign := le_roundUpAlign _ _ ha
    rw [← hL]
    omega

/-- Witness for C10 with a zero-sized element type and five elements. -/
theorem c10_layout_size_positive_witness :
    (0 : Nat) < 1 ∧ (0 : Nat) < 5 ∧
    layout_and_offsets 0 1 5 = .ok (some (⟨1, 1⟩, 1, 1)) ∧
    1 ≤ (Layout.mk 1 1).size :=
  ⟨by decide, by decide, by decide,
    c10_layout_size_positive 0 1 5 ⟨1, 1⟩ 1 1 (by decide) (by decide) (by decide)⟩
